import Mathlib

/-!
Verification development for the endOfDayz zombie-survival game.

The definitions below are a shallow embedding of the Python sources
`a2.py` and `constants.py`.  The game grid is a Python `dict` from
positions to entities; we embed it as an insertion-ordered association
list with the exact read/write semantics of a `dict` (lookup of the
first matching key, in-place overwrite of an existing key, append of a
new key).  Mutation of an entity object held by the grid (e.g. the
player's inventory or infection flag) is embedded as replacing the
entity stored at the player's key.
-/

namespace EndOfDayz

/-- `Position` from a2.py: a pair of integer coordinates. -/
structure Pos where
  x : Int
  y : Int
deriving DecidableEq

/-- `Position.add`: componentwise addition, returning a new position. -/
def Pos.add (p q : Pos) : Pos := ⟨p.x + q.x, p.y + q.y⟩

/-- `Position.distance`: Manhattan distance `|x1-x2| + |y1-y2|`. -/
def Pos.distance (p q : Pos) : Nat := (p.x - q.x).natAbs + (p.y - q.y).natAbs

/-- Pickup subclasses of a2.py: `Garlic`, `Crossbow`, `Time_machine`. -/
inductive PickupKind
  | garlic
  | crossbow
  | timeMachine
deriving DecidableEq

/-- Display characters of the pickup entities (constants.py `GARLIC`,
`CROSSBOW`, `TIME_MACHINE`). -/
def PickupKind.display : PickupKind → Char
  | .garlic => 'G'
  | .crossbow => 'C'
  | .timeMachine => 'M'

/-- The state of a `Pickup` instance: its class, its `_lifetime` and its
`_using` flag.  `Time_machine._lifetime` is the empty string in the
source; its `get_lifetime` never reads the field, so the integer stored
here for a time machine is irrelevant (see `PickupItem.getLifetime`). -/
structure PickupItem where
  kind : PickupKind
  lifetime : Int
  active : Bool
deriving DecidableEq

/-- `LIFETIMES` from constants.py: garlic 10, crossbow 5.  The time
machine's `get_durability` returns the empty string, which we model as
`none`. -/
def durability : PickupKind → Option Int
  | .garlic => some 10
  | .crossbow => some 5
  | .timeMachine => none

/-- `Pickup.get_lifetime`, as overridden by `Time_machine.get_lifetime`
(which returns the empty string, modelled as `none`). -/
def PickupItem.getLifetime (it : PickupItem) : Option Int :=
  match it.kind with
  | .timeMachine => none
  | _ => some it.lifetime

/-- `Pickup.hold`: decrement `_lifetime` when `_using` is set.
`Time_machine.hold` overwrites `_lifetime` with the empty string, a
field its `get_lifetime` never reads, so the item is unchanged here. -/
def PickupItem.hold (it : PickupItem) : PickupItem :=
  match it.kind with
  | .timeMachine => it
  | _ => if it.active then { it with lifetime := it.lifetime - 1 } else it

/-- `Inventory.step`: call `hold` on every item, then keep the items
whose `get_lifetime() > 0`; the `TypeError` raised by comparing the time
machine's string lifetime with `0` makes that item survive. -/
def invStep (items : List PickupItem) : List PickupItem :=
  (items.map PickupItem.hold).filter fun it =>
    match it.getLifetime with
    | some l => decide (0 < l)
    | none => true

/-- `Inventory.step` iterated `n` times. -/
def invStepN : Nat → List PickupItem → List PickupItem
  | 0, items => items
  | n + 1, items => invStepN n (invStep items)

/-- `Inventory.has_active`: some held item has the given display tag and
is active. -/
def hasActive (tag : Char) (items : List PickupItem) : Bool :=
  items.any fun it => it.kind.display = tag && it.active

/-- `Inventory.contains`: some held item has the given display tag. -/
def invHolds (tag : Char) (items : List PickupItem) : Bool :=
  items.any fun it => it.kind.display = tag

/-- The entities of a2.py that can live in the grid.  The player variant
carries the mutable state of a `HoldingPlayer`: the `_infected` flag of
`VulnerablePlayer` and the items of its `Inventory`. -/
inductive Entity
  | player (infected : Bool) (inv : List PickupItem)
  | hospital
  | zombie
  | trackingZombie
  | pickup (item : PickupItem)
deriving DecidableEq

/-- `Entity.display` of each concrete entity class. -/
def Entity.display : Entity → Char
  | .player _ _ => 'P'
  | .hospital => 'H'
  | .zombie => 'Z'
  | .trackingZombie => 'T'
  | .pickup it => it.kind.display

/-- The tile dictionary of `Grid`: an insertion-ordered association
list embedding the Python `dict` from positions to entities. -/
abbrev Tiles := List (Pos × Entity)

/-- `dict.get`: the value of the first (only) entry with the given key. -/
def dictGet : Tiles → Pos → Option Entity
  | [], _ => none
  | (q, f) :: rest, p => if q = p then some f else dictGet rest p

/-- `dict.__setitem__`: overwrite the entry with the given key in place,
or append a new entry. -/
def dictSet : Tiles → Pos → Entity → Tiles
  | [], p, e => [(p, e)]
  | (q, f) :: rest, p, e =>
      if q = p then (p, e) :: rest else (q, f) :: dictSet rest p e

/-- `dict.__delitem__` / `dict.pop`: drop the entry with the given key. -/
def dictDel (ts : Tiles) (p : Pos) : Tiles :=
  ts.filter fun q => q.1 ≠ p

/-- `Grid` from a2.py: a square side length and the tile dictionary. -/
structure Grid where
  size : Int
  tiles : Tiles
deriving DecidableEq

/-- `Grid.in_bounds`: both coordinates in `[0, size)`. -/
def Grid.inBounds (g : Grid) (p : Pos) : Bool :=
  0 ≤ p.x && p.x < g.size && 0 ≤ p.y && p.y < g.size

/-- `Grid.get_entity`: a plain dictionary lookup (the source performs no
bounds check here; out-of-bounds keys are simply never stored). -/
def Grid.get (g : Grid) (p : Pos) : Option Entity :=
  dictGet g.tiles p

/-- `Grid.add_entity`: store the entity unless the position is out of
bounds. -/
def Grid.addEntity (g : Grid) (p : Pos) (e : Entity) : Grid :=
  if g.inBounds p then { g with tiles := dictSet g.tiles p e } else g

/-- `Grid.remove_entity`. -/
def Grid.removeEntity (g : Grid) (p : Pos) : Grid :=
  { g with tiles := dictDel g.tiles p }

/-- `Grid.move_entity`: no-op when `start == end`, when either position
is out of bounds, or when `start` is empty; otherwise write the entity
at `end` and delete the `start` entry, in that order. -/
def Grid.moveEntity (g : Grid) (s e : Pos) : Grid :=
  if s = e then g
  else if g.inBounds s && g.inBounds e then
    match g.get s with
    | some ent => { g with tiles := dictDel (dictSet g.tiles e ent) s }
    | none => g
  else g

/-- `Grid.find_player`: position of the first entity displaying `'P'`. -/
def Grid.findPlayer (g : Grid) : Option Pos :=
  (g.tiles.find? fun pe => pe.2.display = 'P').map (·.1)

/-- `Grid.serialize`: coordinates paired with display characters, in
dictionary order. -/
def Grid.serialize (g : Grid) : List ((Int × Int) × Char) :=
  g.tiles.map fun pe => ((pe.1.x, pe.1.y), pe.2.display)

/-- `Game` from a2.py: the grid, the cached `_player_position` and the
`_steps` counter. -/
structure Game where
  grid : Grid
  playerPos : Option Pos
  steps : Nat
deriving DecidableEq

/-- `Game.__init__`: cache `grid.find_player()`. -/
def Game.init (g : Grid) : Game := ⟨g, g.findPlayer, 0⟩

/-- `Game.get_player`: the entity stored at the cached player
position. -/
def Game.getPlayer (g : Game) : Option Entity :=
  match g.playerPos with
  | none => none
  | some p => g.grid.get p

/-- `Game.has_won`: the hospital character is absent from the serialized
grid's values. -/
def Game.hasWon (g : Game) : Bool :=
  !((g.grid.serialize.map Prod.snd).contains 'H')

/-- `IntermediateGame.has_lost`: true when `get_player()` is `None`;
otherwise the player's infected flag (a non-player entity at the cached
position fails the `isinstance` check and yields false). -/
def Game.hasLost (g : Game) : Bool :=
  match g.getPlayer with
  | none => true
  | some (.player infected _) => infected
  | some _ => false

/-- `Game.move_player`: add the offset to the cached player position
and, when the destination is in bounds, move the entity and update the
cache. -/
def Game.movePlayer (g : Game) (offset : Pos) : Game :=
  match g.playerPos with
  | none => g
  | some pp =>
    let dest := pp.add offset
    if g.grid.inBounds dest then
      { g with grid := g.grid.moveEntity pp dest, playerPos := some dest }
    else g

/-- `AdvancedGame.move_player`: when the in-bounds destination holds a
`Pickup` and the player is a `HoldingPlayer`, append the pickup to the
player's inventory (an in-place mutation of the player object stored at
the cached position, embedded as rewriting that tile) and remove the
pickup from the grid; when it holds a `Zombie` (including
`TrackingZombie`) return immediately; in every other case fall through
to `Game.move_player`. -/
def Game.advancedMovePlayer (g : Game) (offset : Pos) : Game :=
  match g.playerPos with
  | none => g.movePlayer offset
  | some pp =>
    let dest := pp.add offset
    if g.grid.inBounds dest then
      match g.grid.get dest with
      | some (.pickup item) =>
        match g.getPlayer with
        | some (.player infected inv) =>
          let g1 : Game :=
            { g with grid :=
                ((⟨g.grid.size, dictSet g.grid.tiles pp
                    (.player infected (inv ++ [item]))⟩ : Grid).removeEntity
                  dest) }
          g1.movePlayer offset
        | _ => g.movePlayer offset
      | some .zombie => g
      | some .trackingZombie => g
      | _ => g.movePlayer offset
    else g.movePlayer offset

/-- `HoldingPlayer.infect` applied to an infection flag and an
inventory: refuse when an active garlic is held, otherwise set the
flag. -/
def infectPlayer (infected : Bool) (inv : List PickupItem) : Bool :=
  if hasActive 'G' inv then infected else true

/-- `Zombie.step` (shared by `TrackingZombie.step`), parameterised by
the direction list produced by `_directions`: try each offset in order;
an occupied destination infects the player (stopping without moving) or
is skipped; the first empty in-bounds destination receives the zombie.
Only the grid is touched, so the result is a grid. -/
def zombieStep (g : Grid) (pos : Pos) : List (Int × Int) → Grid
  | [] => g
  | d :: rest =>
    let dest := pos.add ⟨d.1, d.2⟩
    match g.get dest with
    | some (.player infected inv) =>
      { g with tiles := dictSet g.tiles dest (.player (infectPlayer infected inv) inv) }
    | some _ => zombieStep g pos rest
    | none =>
      if g.inBounds dest then g.moveEntity pos dest
      else zombieStep g pos rest

/-- `OFFSETS` from constants.py, labelled there `W, S, N, E`. -/
def OFFSETS : List (Int × Int) := [(-1, 0), (0, 1), (0, -1), (1, 0)]

/-- Python's `<=` on the sort keys used by `TrackingZombie._directions`:
the key of a direction is the pair of the Manhattan distance from the
resultant position to the target and the direction tuple itself, pairs
being compared lexicographically. -/
def sortKeyLe (pos target : Pos) (a b : Int × Int) : Prop :=
  (pos.add ⟨a.1, a.2⟩).distance target < (pos.add ⟨b.1, b.2⟩).distance target
  ∨ ((pos.add ⟨a.1, a.2⟩).distance target = (pos.add ⟨b.1, b.2⟩).distance target
      ∧ (a.1 < b.1 ∨ (a.1 = b.1 ∧ a.2 ≤ b.2)))

instance (pos target : Pos) : DecidableRel (sortKeyLe pos target) := fun a b => by
  unfold sortKeyLe
  exact inferInstance

/-- The sort in `TrackingZombie._directions`:
`sorted(OFFSETS, key=lambda d: (distance(pos + d, target), d))`.  The
keys of distinct offsets are distinct, so every correct sort of
`OFFSETS` by this total order returns the same list; `insertionSort`
matches Python's stable `sorted`. -/
def trackingDirectionsTo (pos target : Pos) : List (Int × Int) :=
  List.insertionSort (sortKeyLe pos target) OFFSETS

/-- `TrackingZombie._directions`: empty when the grid has no player,
otherwise the sorted offsets. -/
def trackingDirections (pos : Pos) (g : Grid) : List (Int × Int) :=
  match g.findPlayer with
  | none => []
  | some target => trackingDirectionsTo pos target

/-- Modelled from the spec: the spec sorts the candidate offsets "by
ascending Manhattan distance from the current player position after
applying each candidate offset" with "ties broken by a fixed preference
order: West, South, North, East", i.e. a stable sort of `OFFSETS` (whose
order is W, S, N, E) keyed on the distance alone. -/
def specTieDirections (pos target : Pos) : List (Int × Int) :=
  List.insertionSort
    (fun a b => (pos.add ⟨a.1, a.2⟩).distance target
        ≤ (pos.add ⟨b.1, b.2⟩).distance target)
    OFFSETS

/-- Rank of an offset in the tie-break order the code actually applies:
lexicographic on the offset pair, i.e. W, N, S, E. -/
def prefIndex (d : Int × Int) : Nat :=
  if d = (-1, 0) then 0
  else if d = (0, -1) then 1
  else if d = (0, 1) then 2
  else if d = (1, 0) then 3
  else 4

/-- The position reached after `n` unit steps of `offset` from
`start`. -/
def rayPos (start offset : Pos) (n : Nat) : Pos :=
  ⟨start.x + n * offset.x, start.y + n * offset.y⟩

/-- The while loop of `first_in_direction`, with explicit fuel.  The
fuel below always exceeds the number of in-bounds cells along a cardinal
ray, so exhaustion coincides with leaving the grid. -/
def goScan (g : Grid) (offset : Pos) : Nat → Pos → Option (Pos × Entity)
  | 0, _ => none
  | fuel + 1, p =>
    if g.inBounds p then
      match g.get p with
      | some e => some (p, e)
      | none => goScan g offset fuel (p.add offset)
    else none

/-- `first_in_direction` from a2.py: walk from `start + offset` in unit
steps of `offset` while in bounds, returning the first position holding
an entity together with that entity. -/
def first_in_direction (g : Grid) (start offset : Pos) : Option (Pos × Entity) :=
  goScan g offset (g.size.toNat + 1) (start.add offset)

/-- The grid effect of the fire branch of
`AdvancedTextInterface.handle_action`: find the first entity from the
player's position in the firing direction; remove it exactly when its
display character is in `ZOMBIES = ('Z', 'T')`. -/
def fireResolve (g : Game) (offset : Pos) : Grid :=
  match g.grid.findPlayer with
  | none => g.grid
  | some start =>
    match first_in_direction g.grid start offset with
    | some (q, e) =>
      if e.display = 'Z' ∨ e.display = 'T' then g.grid.removeEntity q
      else g.grid
    | none => g.grid

/-- The mutable state of a `HoldingPlayer` outside the grid: the
`_infected` flag and the inventory's items. -/
structure HPlayer where
  infected : Bool
  inv : List PickupItem
deriving DecidableEq

/-- `HoldingPlayer.infect`. -/
def HPlayer.infect (p : HPlayer) : HPlayer :=
  if hasActive 'G' p.inv then p else { p with infected := true }

/-- `Pickup.toggle_active` applied to the `i`-th held item. -/
def toggleAt : List PickupItem → Nat → List PickupItem
  | [], _ => []
  | it :: rest, 0 => { it with active := !it.active } :: rest
  | it :: rest, i + 1 => it :: toggleAt rest i

/-- The operations that can touch a holding player's state after
construction: `infect`, the inventory's `step`, `add_item` and
`toggle_active` of a held item. -/
inductive POp
  | infectOp
  | stepOp
  | addOp (it : PickupItem)
  | toggleOp (i : Nat)

/-- Apply one player operation. -/
def applyOp (p : HPlayer) : POp → HPlayer
  | .infectOp => p.infect
  | .stepOp => { p with inv := invStep p.inv }
  | .addOp it => { p with inv := p.inv ++ [it] }
  | .toggleOp i => { p with inv := toggleAt p.inv i }

/-! ### Dictionary lemmas -/

theorem dictGet_set_self (ts : Tiles) (p : Pos) (e : Entity) :
    dictGet (dictSet ts p e) p = some e := by
  induction ts with
  | nil => simp [dictGet, dictSet]
  | cons a rest ih =>
    obtain ⟨q, f⟩ := a
    by_cases h : q = p
    · simp [dictSet, h, dictGet]
    · simp [dictSet, h, dictGet, ih]

theorem dictGet_set_ne (ts : Tiles) (p : Pos) (e : Entity) (r : Pos)
    (h : r ≠ p) : dictGet (dictSet ts p e) r = dictGet ts r := by
  induction ts with
  | nil =>
    have hpr : ¬(p = r) := fun hc => h hc.symm
    simp [dictGet, dictSet, hpr]
  | cons a rest ih =>
    obtain ⟨q, f⟩ := a
    by_cases hq : q = p
    · subst hq
      have hqr : ¬(q = r) := fun hc => h hc.symm
      simp [dictSet, dictGet, hqr]
    · simp [dictSet, hq, dictGet, ih]

theorem dictGet_del_self (ts : Tiles) (p : Pos) :
    dictGet (dictDel ts p) p = none := by
  induction ts with
  | nil => simp [dictGet, dictDel]
  | cons a rest ih =>
    obtain ⟨q, f⟩ := a
    by_cases h : q = p
    · simpa [dictDel, h] using ih
    · simpa [dictDel, h, dictGet] using ih

theorem dictGet_del_ne (ts : Tiles) (p : Pos) (r : Pos)
    (h : r ≠ p) : dictGet (dictDel ts p) r = dictGet ts r := by
  induction ts with
  | nil => simp [dictGet, dictDel]
  | cons a rest ih =>
    obtain ⟨q, f⟩ := a
    by_cases hq : q = p
    · subst hq
      have hqr : ¬(q = r) := fun hc => h hc.symm
      simpa [dictDel, dictGet, hqr] using ih
    · by_cases hqr : q = r
      · subst hqr
        simp [dictDel, List.filter_cons, hq, dictGet]
      · simp only [dictDel, List.filter_cons, hq, dictGet, hqr, if_false,
          decide_not]
        simpa [dictDel, dictGet, hqr] using ih

/-! ### Claim C7: Grid.move_entity -/

/-- Claim C7: `Grid.move_entity(start, end)` leaves the grid completely
unchanged when `start == end`, when `start` holds no entity, or when
either `start` or `end` is out of bounds; otherwise, afterwards `end`
holds exactly the entity that `start` held before the call, `start` is
empty, and every other cell is unchanged. -/
theorem moveEntity_spec (g : Grid) (s e : Pos) :
    ((s = e ∨ g.get s = none ∨ g.inBounds s = false ∨ g.inBounds e = false) →
      g.moveEntity s e = g)
    ∧ (∀ ent, s ≠ e → g.inBounds s = true → g.inBounds e = true →
        g.get s = some ent →
        (g.moveEntity s e).get e = some ent
        ∧ (g.moveEntity s e).get s = none
        ∧ ∀ q, q ≠ s → q ≠ e → (g.moveEntity s e).get q = g.get q) := by
  constructor
  · intro h
    by_cases hse : s = e
    · simp [Grid.moveEntity, hse]
    · rcases h with h | h | h | h
      · exact absurd h hse
      · simp [Grid.moveEntity, hse, h]
      · simp [Grid.moveEntity, hse, h]
      · simp [Grid.moveEntity, hse, h]
  · intro ent hse hs he hget
    have hmv : g.moveEntity s e = ⟨g.size, dictDel (dictSet g.tiles e ent) s⟩ := by
      simp [Grid.moveEntity, hse, hs, he, hget]
    refine ⟨?_, ?_, ?_⟩
    · rw [hmv]
      show dictGet (dictDel (dictSet g.tiles e ent) s) e = some ent
      rw [dictGet_del_ne _ _ _ (Ne.symm hse), dictGet_set_self]
    · rw [hmv]
      show dictGet (dictDel (dictSet g.tiles e ent) s) s = none
      rw [dictGet_del_self]
    · intro q hqs hqe
      rw [hmv]
      show dictGet (dictDel (dictSet g.tiles e ent) s) q = g.get q
      rw [dictGet_del_ne _ _ _ hqs, dictGet_set_ne _ _ _ _ hqe]
      rfl

/-- Concrete grid for the C7 witness: a single player on a 10×10
grid, mirroring the doctest of `Grid.move_entity`. -/
def gridC7 : Grid := ⟨10, [(⟨1, 2⟩, .player false [])]⟩

/-- Witness for C7 at concrete inputs: moving from an occupied cell
works, and a `start == end` call is a no-op. -/
theorem moveEntity_spec_witness :
    gridC7.moveEntity ⟨4, 4⟩ ⟨4, 4⟩ = gridC7
    ∧ (gridC7.moveEntity ⟨1, 2⟩ ⟨3, 5⟩).get ⟨3, 5⟩ = some (.player false [])
    ∧ (gridC7.moveEntity ⟨1, 2⟩ ⟨3, 5⟩).get ⟨1, 2⟩ = none := by
  refine ⟨(moveEntity_spec gridC7 ⟨4, 4⟩ ⟨4, 4⟩).1 (Or.inl rfl), ?_, ?_⟩
  · exact ((moveEntity_spec gridC7 ⟨1, 2⟩ ⟨3, 5⟩).2 (.player false [])
      (by decide) (by decide) (by decide) (by decide)).1
  · exact ((moveEntity_spec gridC7 ⟨1, 2⟩ ⟨3, 5⟩).2 (.player false [])
      (by decide) (by decide) (by decide) (by decide)).2.1

/-! ### Claim C6: IntermediateGame.has_lost -/

/-- Claim C6: `IntermediateGame.has_lost()` returns true if and only if
the tracked player is absent from the grid (`get_player()` is `None`),
or the player is present in the grid and is infected. -/
theorem hasLost_spec (g : Game) :
    g.hasLost = true ↔
      (g.getPlayer = none ∨ ∃ inv, g.getPlayer = some (.player true inv)) := by
  cases hgp : g.getPlayer with
  | none => simp [Game.hasLost, hgp]
  | some e => cases e <;> simp [Game.hasLost, hgp]

/-! ### Claim C9: Game.has_won -/

/-- The 4×4 grid of the win scenario: the player at (0, 0) and the
hospital at (3, 3). -/
def gridC9 : Grid := ⟨4, [(⟨0, 0⟩, .player false []), (⟨3, 3⟩, .hospital)]⟩

/-- A path taking the player from (0, 0) to (3, 3): three moves east,
then three moves south. -/
def movesC9 : List Pos := [⟨1, 0⟩, ⟨1, 0⟩, ⟨1, 0⟩, ⟨0, 1⟩, ⟨0, 1⟩, ⟨0, 1⟩]

/-- The game after playing the win-scenario path. -/
def gameC9 : Game := movesC9.foldl Game.movePlayer (Game.init gridC9)

/-- Claim C9: `Game.has_won()` returns true if and only if no cell of
the grid holds an entity whose display tag is `'H'`; in particular, on a
4×4 grid containing only a player and a hospital at (3, 3), moving the
player onto (3, 3) makes `has_won()` true and removes `'H'` from the
serialized grid. -/
theorem hasWon_spec :
    (∀ g : Game, g.hasWon = true ↔ ∀ pe ∈ g.grid.tiles, pe.2.display ≠ 'H')
    ∧ (Game.init gridC9).hasWon = false
    ∧ gameC9.hasWon = true
    ∧ gameC9.playerPos = some ⟨3, 3⟩
    ∧ ∀ kv ∈ gameC9.grid.serialize, kv.2 ≠ 'H' := by
  refine ⟨?_, by decide, by decide, by decide, by decide⟩
  intro g
  unfold Game.hasWon Grid.serialize
  simp [List.mem_map]

/-! ### Claim C4: HoldingPlayer.infect -/

/-- No player operation ever clears the infected flag. -/
theorem applyOp_keeps_infected (p : HPlayer) (op : POp)
    (h : p.infected = true) : (applyOp p op).infected = true := by
  cases op with
  | infectOp =>
    unfold applyOp HPlayer.infect
    by_cases hg : hasActive 'G' p.inv = true <;> simp [hg, h]
  | stepOp => simpa [applyOp]
  | addOp it => simpa [applyOp]
  | toggleOp i => simpa [applyOp]

/-- Claim C4: calling `infect()` while the player's inventory contains
an active Garlic leaves the infection state unchanged; calling
`infect()` with no active Garlic sets `is_infected` to true; and once
`is_infected` is true it remains true after any further sequence of
player operations (including later deactivation of the Garlic). -/
theorem infect_spec :
    (∀ p : HPlayer, hasActive 'G' p.inv = true → p.infect = p)
    ∧ (∀ p : HPlayer, hasActive 'G' p.inv = false →
        (HPlayer.infect p).infected = true)
    ∧ (∀ (p : HPlayer) (ops : List POp), p.infected = true →
        (ops.foldl applyOp p).infected = true) := by
  refine ⟨?_, ?_, ?_⟩
  · intro p h
    simp [HPlayer.infect, h]
  · intro p h
    simp [HPlayer.infect, h]
  · intro p ops h
    induction ops generalizing p with
    | nil => exact h
    | cons op rest ih =>
      exact ih (applyOp p op) (applyOp_keeps_infected p op h)

/-- Witness for C4 at concrete players: an active garlic blocks
infection, its absence permits it, and an infected player stays
infected across a step, an infect attempt and a garlic toggle. -/
theorem infect_spec_witness :
    HPlayer.infect ⟨false, [⟨.garlic, 10, true⟩]⟩ = ⟨false, [⟨.garlic, 10, true⟩]⟩
    ∧ (HPlayer.infect ⟨false, [⟨.garlic, 10, false⟩]⟩).infected = true
    ∧ (([POp.stepOp, POp.infectOp, POp.toggleOp 0]).foldl applyOp
        ⟨true, [⟨.garlic, 10, true⟩]⟩).infected = true :=
  ⟨infect_spec.1 _ (by decide), infect_spec.2.1 _ (by decide),
    infect_spec.2.2 _ _ (by decide)⟩

/-! ### Claim C5: Inventory lifecycle -/

/-- `Inventory.step` distributes over concatenation of the item list. -/
theorem invStep_append (xs ys : List PickupItem) :
    invStep (xs ++ ys) = invStep xs ++ invStep ys := by
  simp [invStep, List.filter_append]

/-- An empty inventory stays empty. -/
theorem invStepN_nil : ∀ n : Nat, invStepN n [] = []
  | 0 => rfl
  | n + 1 => by
    show invStepN n (invStep []) = []
    rw [show invStep [] = [] from rfl]
    exact invStepN_nil n

/-- Iterated `Inventory.step` distributes over concatenation. -/
theorem invStepN_append (n : Nat) (xs ys : List PickupItem) :
    invStepN n (xs ++ ys) = invStepN n xs ++ invStepN n ys := by
  induction n generalizing xs ys with
  | zero => rfl
  | succ n ih =>
    show invStepN n (invStep (xs ++ ys)) = _
    rw [invStep_append, ih]
    rfl

/-- One step of a single active garlic or crossbow: decrement, and drop
the item when the lifetime is exhausted. -/
theorem invStep_single_active (k : PickupKind) (hk : k ≠ .timeMachine) (l : Int) :
    invStep [⟨k, l, true⟩] = if 0 < l - 1 then [⟨k, l - 1, true⟩] else [] := by
  cases k with
  | timeMachine => exact absurd rfl hk
  | garlic =>
    by_cases h : 0 < l - 1 <;>
      simp [invStep, PickupItem.hold, PickupItem.getLifetime, h]
  | crossbow =>
    by_cases h : 0 < l - 1 <;>
      simp [invStep, PickupItem.hold, PickupItem.getLifetime, h]

/-- `n` steps of a single active garlic or crossbow of positive
lifetime `l`: present with lifetime `l - n` while `n < l`, gone
afterwards. -/
theorem invStepN_single_active (k : PickupKind) (hk : k ≠ .timeMachine) :
    ∀ (n : Nat) (l : Int), 0 < l →
      invStepN n [⟨k, l, true⟩]
        = if (n : Int) < l then [⟨k, l - n, true⟩] else [] := by
  intro n
  induction n with
  | zero =>
    intro l hl
    simp [invStepN, hl]
  | succ n ih =>
    intro l hl
    show invStepN n (invStep [⟨k, l, true⟩]) = _
    rw [invStep_single_active k hk l]
    by_cases h : 0 < l - 1
    · rw [if_pos h, ih (l - 1) h]
      split_ifs with h2 h3 h4 <;>
        first
          | rfl
          | (simp only [List.cons.injEq, PickupItem.mk.injEq, true_and,
              and_true]
             omega)
          | omega
    · rw [if_neg h, invStepN_nil, if_neg (by push_cast; omega)]

/-- One step of a single inactive garlic or crossbow of positive
lifetime: unchanged. -/
theorem invStep_single_inactive (k : PickupKind) (hk : k ≠ .timeMachine)
    (l : Int) (hl : 0 < l) : invStep [⟨k, l, false⟩] = [⟨k, l, false⟩] := by
  cases k with
  | timeMachine => exact absurd rfl hk
  | garlic => simp [invStep, PickupItem.hold, PickupItem.getLifetime, hl]
  | crossbow => simp [invStep, PickupItem.hold, PickupItem.getLifetime, hl]

/-- Any number of steps of a single inactive garlic or crossbow of
positive lifetime: unchanged. -/
theorem invStepN_single_inactive (k : PickupKind) (hk : k ≠ .timeMachine)
    (l : Int) (hl : 0 < l) :
    ∀ n : Nat, invStepN n [⟨k, l, false⟩] = [⟨k, l, false⟩]
  | 0 => rfl
  | n + 1 => by
    show invStepN n (invStep [⟨k, l, false⟩]) = _
    rw [invStep_single_inactive k hk l hl]
    exact invStepN_single_inactive k hk l hl n

/-- Claim C5: a freshly picked-up pickup (garlic with lifetime 10,
crossbow with lifetime 5) appended to an inventory: while active,
calling `Inventory.step()` exactly `durability` many times removes it,
and after any fewer calls it is still present with positive lifetime;
while inactive, it is untouched by any number of calls; and each step
returns a sublist of the held (decremented) items, preserving the
relative order of the survivors. -/
theorem inventory_step_spec (k : PickupKind) (d : Int)
    (hd : durability k = some d) :
    (∀ (xs : List PickupItem) (n : Nat), (n : Int) < d →
        0 < d - n
        ∧ invStepN n (xs ++ [⟨k, d, true⟩])
            = invStepN n xs ++ [⟨k, d - n, true⟩])
    ∧ (∀ xs : List PickupItem,
        invStepN d.toNat (xs ++ [⟨k, d, true⟩]) = invStepN d.toNat xs)
    ∧ (∀ (xs : List PickupItem) (n : Nat),
        invStepN n (xs ++ [⟨k, d, false⟩]) = invStepN n xs ++ [⟨k, d, false⟩])
    ∧ (∀ items : List PickupItem,
        (invStep items).Sublist (items.map PickupItem.hold)) := by
  have hk : k ≠ .timeMachine := by
    cases k <;> simp_all [durability]
  have hdpos : 0 < d := by
    cases k with
    | garlic =>
      simp [durability] at hd
      omega
    | crossbow =>
      simp [durability] at hd
      omega
    | timeMachine => simp [durability] at hd
  refine ⟨?_, ?_, ?_, ?_⟩
  · intro xs n hn
    refine ⟨by omega, ?_⟩
    rw [invStepN_append, invStepN_single_active k hk n d hdpos, if_pos hn]
  · intro xs
    rw [invStepN_append, invStepN_single_active k hk d.toNat d hdpos,
      if_neg (by omega), List.append_nil]
  · intro xs n
    rw [invStepN_append, invStepN_single_inactive k hk d hdpos n]
  · intro items
    unfold invStep
    exact List.filter_sublist _

/-- Witness for C5 at concrete inventories: an active garlic decrements
to 7 after 3 steps, is gone after 10 steps, and an inactive garlic is
untouched after 4 steps. -/
theorem inventory_step_spec_witness :
    invStepN 3 ([] ++ [⟨.garlic, 10, true⟩])
      = invStepN 3 [] ++ [⟨.garlic, 7, true⟩]
    ∧ invStepN 10 ([⟨.crossbow, 5, false⟩] ++ [⟨.garlic, 10, true⟩])
      = invStepN 10 [⟨.crossbow, 5, false⟩]
    ∧ invStepN 4 ([] ++ [⟨.garlic, 10, false⟩])
      = invStepN 4 [] ++ [⟨.garlic, 10, false⟩] := by
  refine ⟨?_, ?_, ?_⟩
  · have h := ((inventory_step_spec .garlic 10 rfl).1 [] 3 (by decide)).2
    simpa using h
  · have h := (inventory_step_spec .garlic 10 rfl).2.1 [⟨.crossbow, 5, false⟩]
    simpa using h
  · exact (inventory_step_spec .garlic 10 rfl).2.2.1 [] 4

/-! ### Claim C2: AdvancedGame.move_player -/

/-- Claim C2: in `AdvancedGame.move_player` with an in-bounds
destination, a destination holding a pickup has that pickup appended to
the player's inventory and removed from the grid, with the player then
moving onto the cell (other cells untouched); a destination holding a
zombie of either variant leaves the game — grid, tracked player
position and infection state — entirely unchanged. -/
theorem advancedMovePlayer_spec (g : Game) (off pp : Pos) (inf : Bool)
    (inv : List PickupItem)
    (hpp : g.playerPos = some pp)
    (hb : g.grid.inBounds pp = true)
    (hply : g.grid.get pp = some (.player inf inv))
    (hdb : g.grid.inBounds (pp.add off) = true) :
    (∀ item : PickupItem, g.grid.get (pp.add off) = some (.pickup item) →
        (g.advancedMovePlayer off).playerPos = some (pp.add off)
        ∧ (g.advancedMovePlayer off).grid.get (pp.add off)
            = some (.player inf (inv ++ [item]))
        ∧ (g.advancedMovePlayer off).grid.get pp = none
        ∧ ∀ q, q ≠ pp → q ≠ pp.add off →
            (g.advancedMovePlayer off).grid.get q = g.grid.get q)
    ∧ ((g.grid.get (pp.add off) = some .zombie
        ∨ g.grid.get (pp.add off) = some .trackingZombie) →
        g.advancedMovePlayer off = g) := by
  constructor
  · intro item hdest
    have hne : pp ≠ pp.add off := by
      intro hc
      rw [← hc] at hdest
      rw [hply] at hdest
      exact absurd (Option.some.injEq .. ▸ hdest) (by simp)
    have hget1 :
        (⟨g.grid.size,
          dictDel (dictSet g.grid.tiles pp (.player inf (inv ++ [item])))
            (pp.add off)⟩ : Grid).get pp
          = some (.player inf (inv ++ [item])) := by
      show dictGet _ _ = _
      rw [dictGet_del_ne _ _ _ hne, dictGet_set_self]
    have hres : g.advancedMovePlayer off =
        ⟨⟨g.grid.size,
          dictDel
            (dictSet
              (dictDel (dictSet g.grid.tiles pp (.player inf (inv ++ [item])))
                (pp.add off))
              (pp.add off) (.player inf (inv ++ [item])))
            pp⟩,
          some (pp.add off), g.steps⟩ := by
      simp only [Game.advancedMovePlayer, hpp, hdb, hdest, Game.getPlayer,
        hply, Grid.removeEntity, Game.movePlayer, if_true]
      simp only [Grid.moveEntity, hne, if_false, Grid.inBounds] at *
      simp only [hb, hdb, Bool.and_self, if_true, hget1]
    refine ⟨?_, ?_, ?_, ?_⟩
    · rw [hres]
    · rw [hres]
      show dictGet _ _ = _
      rw [dictGet_del_ne _ _ _ (fun hc => hne hc.symm), dictGet_set_self]
    · rw [hres]
      show dictGet _ _ = _
      rw [dictGet_del_self]
    · intro q hqp hqd
      rw [hres]
      show dictGet _ _ = _
      rw [dictGet_del_ne _ _ _ hqp, dictGet_set_ne _ _ _ _ hqd,
        dictGet_del_ne _ _ _ hqd, dictGet_set_ne _ _ _ _ hqp]
      rfl
  · intro hz
    rcases hz with hz | hz <;>
      simp only [Game.advancedMovePlayer, hpp, hdb, hz, if_true]

/-- Concrete game for the C2 witness: the player at (0, 0), a garlic
pickup to the east and a zombie to the south on a 4×4 grid. -/
def gameC2 : Game :=
  Game.init ⟨4, [(⟨0, 0⟩, .player false []),
    (⟨1, 0⟩, .pickup ⟨.garlic, 10, false⟩), (⟨0, 1⟩, .zombie)]⟩

/-- Witness for C2 at concrete inputs: moving east collects the garlic
and relocates the player; moving south into the zombie changes
nothing. -/
theorem advancedMovePlayer_spec_witness :
    (gameC2.advancedMovePlayer ⟨1, 0⟩).grid.get ⟨1, 0⟩
      = some (.player false [⟨.garlic, 10, false⟩])
    ∧ (gameC2.advancedMovePlayer ⟨1, 0⟩).playerPos = some ⟨1, 0⟩
    ∧ gameC2.advancedMovePlayer ⟨0, 1⟩ = gameC2 := by
  have h1 := advancedMovePlayer_spec gameC2 ⟨1, 0⟩ ⟨0, 0⟩ false []
    (by decide) (by decide) (by decide) (by decide)
  have h2 := advancedMovePlayer_spec gameC2 ⟨0, 1⟩ ⟨0, 0⟩ false []
    (by decide) (by decide) (by decide) (by decide)
  obtain ⟨hpos, hget, -, -⟩ := h1.1 ⟨.garlic, 10, false⟩ (by decide)
  exact ⟨hget, hpos, h2.2 (Or.inl (by decide))⟩

/-! ### Claim C10: zombie step frame effect -/

/-- Claim C10: a step of a zombie (or tracking zombie, which shares the
same `step` body), for any direction order: either the zombie moved from
its cell to a previously empty in-bounds cell and every other cell is
unchanged, or the zombie did not move and the grid is unchanged except
that the entity of at most one player cell had `infect()` called on
it.  In particular the player, hospital, pickups and other zombies
occupy the same cells before and after, and the zombie does not move in
the turn in which it infects the player. -/
theorem zombieStep_frame (dirs : List (Int × Int)) (pos : Pos) (g : Grid)
    (z : Entity) (hz : g.get pos = some z)
    (hzk : z = .zombie ∨ z = .trackingZombie) :
    (∃ dest, dest ≠ pos ∧ g.inBounds dest = true ∧ g.get dest = none
        ∧ (zombieStep g pos dirs).get dest = some z
        ∧ (zombieStep g pos dirs).get pos = none
        ∧ ∀ q, q ≠ pos → q ≠ dest → (zombieStep g pos dirs).get q = g.get q)
    ∨ ((zombieStep g pos dirs).get pos = some z
        ∧ ∀ q, (zombieStep g pos dirs).get q = g.get q
            ∨ ∃ b inv, g.get q = some (.player b inv)
                ∧ (zombieStep g pos dirs).get q
                    = some (.player (infectPlayer b inv) inv)) := by
  induction dirs with
  | nil =>
    right
    exact ⟨hz, fun q => Or.inl rfl⟩
  | cons d rest ih =>
    by_cases hdp : g.get (pos.add ⟨d.1, d.2⟩) = none
    · by_cases hbd : g.inBounds (pos.add ⟨d.1, d.2⟩) = true
      · have hne : ¬(pos = pos.add ⟨d.1, d.2⟩) := by
          intro hc
          rw [← hc] at hdp
          rw [hz] at hdp
          exact Option.noConfusion hdp
        have hstep : zombieStep g pos (d :: rest)
            = g.moveEntity pos (pos.add ⟨d.1, d.2⟩) := by
          simp [zombieStep, hdp, hbd]
        by_cases hbp : g.inBounds pos = true
        · have hmv : g.moveEntity pos (pos.add ⟨d.1, d.2⟩)
              = ⟨g.size, dictDel (dictSet g.tiles (pos.add ⟨d.1, d.2⟩) z) pos⟩ := by
            simp [Grid.moveEntity, hne, hbp, hbd, hz]
          left
          refine ⟨pos.add ⟨d.1, d.2⟩, fun hc => hne hc.symm, hbd, hdp, ?_, ?_, ?_⟩
          · rw [hstep, hmv]
            show dictGet _ _ = _
            rw [dictGet_del_ne _ _ _ (fun hc => hne hc.symm), dictGet_set_self]
          · rw [hstep, hmv]
            show dictGet _ _ = _
            rw [dictGet_del_self]
          · intro q hqp hqd
            rw [hstep, hmv]
            show dictGet _ _ = _
            rw [dictGet_del_ne _ _ _ hqp, dictGet_set_ne _ _ _ _ hqd]
            rfl
        · have hmv : g.moveEntity pos (pos.add ⟨d.1, d.2⟩) = g := by
            simp [Grid.moveEntity, hne, Bool.and_eq_true, hbp]
          right
          rw [hstep, hmv]
          exact ⟨hz, fun q => Or.inl rfl⟩
      · have hstep : zombieStep g pos (d :: rest) = zombieStep g pos rest := by
          simp [zombieStep, hdp, hbd]
        rw [hstep]
        exact ih
    · obtain ⟨e, he⟩ := Option.ne_none_iff_exists'.mp hdp
      cases e with
      | player b inv =>
        have hne : ¬(pos = pos.add ⟨d.1, d.2⟩) := by
          intro hc
          rw [← hc] at he
          rw [hz] at he
          rcases hzk with hzk | hzk <;> simp [hzk] at he
        have hstep : zombieStep g pos (d :: rest)
            = ⟨g.size, dictSet g.tiles (pos.add ⟨d.1, d.2⟩)
                (.player (infectPlayer b inv) inv)⟩ := by
          simp [zombieStep, he]
        right
        constructor
        · rw [hstep]
          show dictGet _ _ = _
          rw [dictGet_set_ne _ _ _ _ hne]
          exact hz
        · intro q
          by_cases hq : q = pos.add ⟨d.1, d.2⟩
          · right
            subst hq
            refine ⟨b, inv, he, ?_⟩
            rw [hstep]
            show dictGet _ _ = _
            rw [dictGet_set_self]
          · left
            rw [hstep]
            show dictGet _ _ = _
            rw [dictGet_set_ne _ _ _ _ hq]
            rfl
      | hospital =>
        have hstep : zombieStep g pos (d :: rest) = zombieStep g pos rest := by
          simp [zombieStep, he]
        rw [hstep]
        exact ih
      | zombie =>
        have hstep : zombieStep g pos (d :: rest) = zombieStep g pos rest := by
          simp [zombieStep, he]
        rw [hstep]
        exact ih
      | trackingZombie =>
        have hstep : zombieStep g pos (d :: rest) = zombieStep g pos rest := by
          simp [zombieStep, he]
        rw [hstep]
        exact ih
      | pickup it =>
        have hstep : zombieStep g pos (d :: rest) = zombieStep g pos rest := by
          simp [zombieStep, he]
        rw [hstep]
        exact ih

/-- Concrete grid for the C10 witness: a zombie at (1, 1) beside the
player at (2, 1) on a 3×3 grid. -/
def gridC10 : Grid := ⟨3, [(⟨1, 1⟩, .zombie), (⟨2, 1⟩, .player false [])]⟩

/-- Witness for C10: the frame property instantiated at the concrete
grid, the zombie's cell, and the constant direction order `OFFSETS`. -/
theorem zombieStep_frame_witness :
    (∃ dest, dest ≠ (⟨1, 1⟩ : Pos) ∧ gridC10.inBounds dest = true
        ∧ gridC10.get dest = none
        ∧ (zombieStep gridC10 ⟨1, 1⟩ OFFSETS).get dest = some .zombie
        ∧ (zombieStep gridC10 ⟨1, 1⟩ OFFSETS).get ⟨1, 1⟩ = none
        ∧ ∀ q, q ≠ ⟨1, 1⟩ → q ≠ dest →
            (zombieStep gridC10 ⟨1, 1⟩ OFFSETS).get q = gridC10.get q)
    ∨ ((zombieStep gridC10 ⟨1, 1⟩ OFFSETS).get ⟨1, 1⟩ = some .zombie
        ∧ ∀ q, (zombieStep gridC10 ⟨1, 1⟩ OFFSETS).get q = gridC10.get q
            ∨ ∃ b inv, gridC10.get q = some (.player b inv)
                ∧ (zombieStep gridC10 ⟨1, 1⟩ OFFSETS).get q
                    = some (.player (infectPlayer b inv) inv)) :=
  zombieStep_frame OFFSETS ⟨1, 1⟩ gridC10 .zombie (by decide) (Or.inl rfl)

/-! ### Claim C3: firing a crossbow -/

/-- Stepping a ray position by the offset advances the step count. -/
theorem rayPos_add (start off : Pos) (n : Nat) :
    (rayPos start off n).add off = rayPos start off (n + 1) := by
  unfold rayPos Pos.add
  refine congrArg₂ Pos.mk ?_ ?_ <;> push_cast <;> ring

/-- The first cell inspected by the scan is one step from the start. -/
theorem rayPos_one (start off : Pos) : start.add off = rayPos start off 1 := by
  unfold rayPos Pos.add
  refine congrArg₂ Pos.mk ?_ ?_ <;> push_cast <;> ring

/-- The scanning loop of `first_in_direction` returns the first
occupied cell of the ray: every strictly earlier ray cell it inspected
was in bounds and empty. -/
theorem goScan_some_spec (g : Grid) (start off : Pos) :
    ∀ (fuel k : Nat) (q : Pos) (e : Entity),
      goScan g off fuel (rayPos start off (k + 1)) = some (q, e) →
      ∃ n, k + 1 ≤ n ∧ q = rayPos start off n ∧ g.inBounds q = true
        ∧ g.get q = some e
        ∧ ∀ m, k + 1 ≤ m → m < n →
            g.inBounds (rayPos start off m) = true
            ∧ g.get (rayPos start off m) = none := by
  intro fuel
  induction fuel with
  | zero =>
    intro k q e h
    exact absurd h (by simp [goScan])
  | succ fuel ih =>
    intro k q e h
    by_cases hb : g.inBounds (rayPos start off (k + 1)) = true
    · rw [goScan, if_pos hb] at h
      cases hget : g.get (rayPos start off (k + 1)) with
      | some f =>
        rw [hget] at h
        obtain ⟨hq, he⟩ : rayPos start off (k + 1) = q ∧ f = e := by
          simpa using h
        subst hq
        subst he
        exact ⟨k + 1, le_refl _, rfl, hb, hget, fun m hm1 hm2 => by omega⟩
      | none =>
        rw [hget] at h
        rw [rayPos_add] at h
        obtain ⟨n, hn, hq, hqb, hqe, hmid⟩ := ih (k + 1) q e h
        refine ⟨n, by omega, hq, hqb, hqe, ?_⟩
        intro m hm1 hm2
        by_cases hmk : m = k + 1
        · subst hmk
          exact ⟨hb, hget⟩
        · exact hmid m (by omega) hm2
    · rw [goScan, if_neg hb] at h
      exact absurd h (by simp)

/-- Claim C3: a fire action scans outward from the player one unit step
at a time, stopping at the first occupied in-bounds cell (regardless of
the entity's type) or at the boundary; the fire resolution leaves the
grid unchanged when nothing is found or when the first entity found is
not a zombie variant, and when it is a zombie variant exactly that cell
is emptied and every other cell is unchanged. -/
theorem fire_spec (g : Game) (off pp : Pos)
    (hpp : g.grid.findPlayer = some pp) :
    (∀ q e, first_in_direction g.grid pp off = some (q, e) →
        ∃ n, 1 ≤ n ∧ q = rayPos pp off n ∧ g.grid.inBounds q = true
          ∧ g.grid.get q = some e
          ∧ ∀ m, 1 ≤ m → m < n →
              g.grid.inBounds (rayPos pp off m) = true
              ∧ g.grid.get (rayPos pp off m) = none)
    ∧ (first_in_direction g.grid pp off = none → fireResolve g off = g.grid)
    ∧ (∀ q e, first_in_direction g.grid pp off = some (q, e) →
        (e.display = 'Z' ∨ e.display = 'T') →
        (fireResolve g off).get q = none
        ∧ (∀ r, r ≠ q → (fireResolve g off).get r = g.grid.get r)
        ∧ (fireResolve g off).size = g.grid.size)
    ∧ (∀ q e, first_in_direction g.grid pp off = some (q, e) →
        ¬(e.display = 'Z' ∨ e.display = 'T') → fireResolve g off = g.grid) := by
  refine ⟨?_, ?_, ?_, ?_⟩
  · intro q e h
    rw [first_in_direction, rayPos_one] at h
    exact goScan_some_spec g.grid pp off (g.grid.size.toNat + 1) 0 q e h
  · intro h
    simp [fireResolve, hpp, h]
  · intro q e h hd
    have hfr : fireResolve g off = g.grid.removeEntity q := by
      simp [fireResolve, hpp, h, hd]
    refine ⟨?_, ?_, ?_⟩
    · rw [hfr]
      show dictGet (dictDel g.grid.tiles q) q = none
      rw [dictGet_del_self]
    · intro r hr
      rw [hfr]
      show dictGet (dictDel g.grid.tiles q) r = g.grid.get r
      rw [dictGet_del_ne _ _ _ hr]
      rfl
    · rw [hfr]
      rfl
  · intro q e h hd
    simp [fireResolve, hpp, h, hd]

/-- Concrete game for the C3 witness: the player at (0, 0) holding a
crossbow, the hospital at (1, 0) and a zombie at (0, 2) on a 4×4
grid. -/
def gameC3 : Game :=
  Game.init ⟨4, [(⟨0, 0⟩, .player false [⟨.crossbow, 5, false⟩]),
    (⟨1, 0⟩, .hospital), (⟨0, 2⟩, .zombie)]⟩

/-- Witness for C3 at concrete inputs: firing east hits the hospital
first and removes nothing; firing south removes the zombie at (0, 2)
and leaves the player's cell alone. -/
theorem fire_spec_witness :
    fireResolve gameC3 ⟨1, 0⟩ = gameC3.grid
    ∧ (fireResolve gameC3 ⟨0, 1⟩).get ⟨0, 2⟩ = none
    ∧ (fireResolve gameC3 ⟨0, 1⟩).get ⟨0, 0⟩ = gameC3.grid.get ⟨0, 0⟩ := by
  have h1 := fire_spec gameC3 ⟨1, 0⟩ ⟨0, 0⟩ (by decide)
  have h2 := fire_spec gameC3 ⟨0, 1⟩ ⟨0, 0⟩ (by decide)
  refine ⟨h1.2.2.2 ⟨1, 0⟩ .hospital (by decide) (by decide), ?_, ?_⟩
  · exact (h2.2.2.1 ⟨0, 2⟩ .zombie (by decide) (Or.inl rfl)).1
  · exact (h2.2.2.1 ⟨0, 2⟩ .zombie (by decide) (Or.inl rfl)).2.1 ⟨0, 0⟩
      (by decide)

/-! ### Claim C8: tracking zombie concrete ordering -/

/-- Concrete grid for C8: the tracking zombie at (1, 1) and the player
at (2, 4) on a 6×6 grid. -/
def gridC8 : Grid := ⟨6, [(⟨2, 4⟩, .player false []), (⟨1, 1⟩, .trackingZombie)]⟩

/-- Claim C8: for a tracking zombie at (1, 1) with the player at (2, 4),
the candidate destinations are evaluated in exactly the order (1, 2),
(2, 1), (0, 1), (1, 0) — the two candidates at Manhattan distance 3 from
the player before the two at distance 5. -/
theorem trackingOrder_c8 :
    gridC8.findPlayer = some ⟨2, 4⟩
    ∧ (trackingDirections ⟨1, 1⟩ gridC8).map (fun d => Pos.add ⟨1, 1⟩ ⟨d.1, d.2⟩)
        = [⟨1, 2⟩, ⟨2, 1⟩, ⟨0, 1⟩, ⟨1, 0⟩]
    ∧ Pos.distance ⟨1, 2⟩ ⟨2, 4⟩ = 3 ∧ Pos.distance ⟨2, 1⟩ ⟨2, 4⟩ = 3
    ∧ Pos.distance ⟨0, 1⟩ ⟨2, 4⟩ = 5 ∧ Pos.distance ⟨1, 0⟩ ⟨2, 4⟩ = 5 := by
  decide

/-! ### Claim C1: tracking zombie tie-breaking -/

/-- Concrete grid for C1: the tracking zombie at (1, 1) and the player
at (3, 1) — on the same row, so that the South (0, 1) and North (0, -1)
offsets tie in distance. -/
def gridC1 : Grid := ⟨6, [(⟨3, 1⟩, .player false []), (⟨1, 1⟩, .trackingZombie)]⟩

/-- Counterexample to claim C1 as stated: with the zombie at (1, 1) and
the player at (3, 1), the code evaluates the tied offsets as
West (-1, 0), North (0, -1), South (0, 1) — the sort key includes the
offset pair itself, compared lexicographically — whereas a sort by
distance alone with ties broken by the `OFFSETS` preference order
W, S, N, E (the claim's reading, `specTieDirections`) would place
South (0, 1) before North (0, -1). -/
theorem trackingTieBreak_cex :
    gridC1.findPlayer = some ⟨3, 1⟩
    ∧ trackingDirections ⟨1, 1⟩ gridC1 = [(1, 0), (-1, 0), (0, -1), (0, 1)]
    ∧ specTieDirections ⟨1, 1⟩ ⟨3, 1⟩ = [(1, 0), (-1, 0), (0, 1), (0, -1)]
    ∧ trackingDirections ⟨1, 1⟩ gridC1 ≠ specTieDirections ⟨1, 1⟩ ⟨3, 1⟩ := by
  decide

instance (pos target : Pos) : IsTotal (Int × Int) (sortKeyLe pos target) := by
  constructor
  intro a b
  obtain ⟨a1, a2⟩ := a
  obtain ⟨b1, b2⟩ := b
  unfold sortKeyLe
  generalize (Pos.add pos ⟨(a1, a2).1, (a1, a2).2⟩).distance target = d1
  generalize (Pos.add pos ⟨(b1, b2).1, (b1, b2).2⟩).distance target = d2
  simp only
  omega

instance (pos target : Pos) : IsTrans (Int × Int) (sortKeyLe pos target) := by
  constructor
  intro a b c hab hbc
  obtain ⟨a1, a2⟩ := a
  obtain ⟨b1, b2⟩ := b
  obtain ⟨c1, c2⟩ := c
  unfold sortKeyLe at *
  revert hab hbc
  generalize (Pos.add pos ⟨(a1, a2).1, (a1, a2).2⟩).distance target = d1
  generalize (Pos.add pos ⟨(b1, b2).1, (b1, b2).2⟩).distance target = d2
  generalize (Pos.add pos ⟨(c1, c2).1, (c1, c2).2⟩).distance target = d3
  simp only
  omega

/-- Strengthen a pairwise relation on a duplicate-free list using facts
about its members. -/
theorem pairwise_strengthen {α : Type} {R S : α → α → Prop} :
    ∀ l : List α, l.Pairwise R → l.Nodup →
      (∀ a b, a ∈ l → b ∈ l → a ≠ b → R a b → S a b) → l.Pairwise S
  | [], _, _, _ => List.Pairwise.nil
  | x :: t, hR, hN, himp => by
    obtain ⟨hRx, hRt⟩ := List.pairwise_cons.mp hR
    obtain ⟨hNx, hNt⟩ := List.nodup_cons.mp hN
    refine List.Pairwise.cons ?_ (pairwise_strengthen t hRt hNt ?_)
    · intro y hy
      exact himp x y (.head _) (.tail _ hy) (fun hc => hNx (hc ▸ hy)) (hRx y hy)
    · intro a b ha hb hne hr
      exact himp a b (.tail _ ha) (.tail _ hb) hne hr

/-- Claim C1 (amended): for every tracking zombie step, the four
candidate offsets are evaluated sorted by ascending Manhattan distance
from the resultant position to the current player position, and
whenever two offsets yield equal distance the one earlier in the fixed
preference order West (-1, 0), North (0, -1), South (0, 1), East (1, 0)
— lexicographic on the offset pair — is evaluated first. -/
theorem trackingDirections_order (pos : Pos) (g : Grid) (target : Pos)
    (ht : g.findPlayer = some target) :
    (trackingDirections pos g).Perm OFFSETS
    ∧ (trackingDirections pos g).Pairwise (fun a b =>
        (pos.add ⟨a.1, a.2⟩).distance target
            < (pos.add ⟨b.1, b.2⟩).distance target
        ∨ ((pos.add ⟨a.1, a.2⟩).distance target
              = (pos.add ⟨b.1, b.2⟩).distance target
            ∧ prefIndex a < prefIndex b)) := by
  have htd : trackingDirections pos g = trackingDirectionsTo pos target := by
    simp [trackingDirections, ht]
  rw [htd]
  have hperm : (trackingDirectionsTo pos target).Perm OFFSETS :=
    List.perm_insertionSort _ _
  refine ⟨hperm, ?_⟩
  have hsorted : (trackingDirectionsTo pos target).Pairwise (sortKeyLe pos target) :=
    List.sorted_insertionSort _ _
  have hnodup : (trackingDirectionsTo pos target).Nodup :=
    hperm.symm.nodup (by decide)
  refine pairwise_strengthen _ hsorted hnodup ?_
  intro a b ha hb hne hr
  have ha' : a ∈ OFFSETS := hperm.mem_iff.mp ha
  have hb' : b ∈ OFFSETS := hperm.mem_iff.mp hb
  rcases hr with hlt | ⟨heq, hlex⟩
  · exact Or.inl hlt
  · refine Or.inr ⟨heq, ?_⟩
    simp only [OFFSETS, List.mem_cons, List.not_mem_nil, or_false] at ha' hb'
    rcases ha' with rfl | rfl | rfl | rfl <;>
      rcases hb' with rfl | rfl | rfl | rfl <;>
        first
          | exact absurd rfl hne
          | (exfalso
             revert hlex
             decide)
          | decide

/-- Witness for the amended C1 at concrete inputs: the ordering property
instantiated at the zombie position (1, 1) and the grid with the player
at (3, 1). -/
theorem trackingDirections_order_witness :
    (trackingDirections ⟨1, 1⟩ gridC1).Perm OFFSETS
    ∧ (trackingDirections ⟨1, 1⟩ gridC1).Pairwise (fun a b =>
        (Pos.add ⟨1, 1⟩ ⟨a.1, a.2⟩).distance ⟨3, 1⟩
            < (Pos.add ⟨1, 1⟩ ⟨b.1, b.2⟩).distance ⟨3, 1⟩
        ∨ ((Pos.add ⟨1, 1⟩ ⟨a.1, a.2⟩).distance ⟨3, 1⟩
              = (Pos.add ⟨1, 1⟩ ⟨b.1, b.2⟩).distance ⟨3, 1⟩
            ∧ prefIndex a < prefIndex b)) :=
  trackingDirections_order ⟨1, 1⟩ gridC1 ⟨3, 1⟩ (by decide)

end EndOfDayz
